import Mathlib

/-!
Formal model of the EgressLens core pipeline.

The definitions below are shallow embeddings of the Python sources:
* `StraceParser` models `src/cli/egresslens/strace_parser.py`,
* `Backend` models `compute_aggregates` and `calculate_flags` from
  `src/backend/app/main.py`,
* `Watch` models `watch_command` from `src/cli/egresslens/watch.py` together
  with the call into `run_docker_command` (`src/cli/egresslens/docker_runner.py`).

Python strings are modelled as `List Char`, Python ints as `Nat`/`Int`
(arbitrary precision, as in Python), and Python floats as exact rationals
(`ℚ`); float conversion failures (`ValueError`) and call-binding failures
(`TypeError`) are modelled with an explicit exception type `PyExn`.
-/

set_option maxRecDepth 8000

-- Equality on `Except` results is decidable, so the model can be evaluated
-- on concrete lines.
deriving instance DecidableEq for Except

namespace StraceParser

/-- Python exceptions that the modelled code can raise. -/
inductive PyExn where
  | typeError (msg : String)
  | valueError (msg : String)
deriving DecidableEq

/-- ASCII whitespace class of the regex token `\s`. -/
def isWsC (c : Char) : Bool :=
  c == ' ' || c == '\t' || c == '\n' || c == '\r' || c == '\x0b' || c == '\x0c'

/-- Character class `[\d.]` used for the timestamp group. -/
def isTsC (c : Char) : Bool := c.isDigit || c == '.'

/-- Word-character class of the regex token `\w` (ASCII part). -/
def isWordC (c : Char) : Bool := c.isAlphanum || c == '_'

/-- Literal `connect(` used by the candidate test and by the pattern. -/
def connectLit : List Char := ("connect(").data

/-- Literal `AF_INET` used by the candidate test (`"AF_INET" in line`). -/
def afinetLit : List Char := ("AF_INET").data

/-- Literal `sa_family=AF_INET6`, the IPv6 family marker. -/
def af6Lit : List Char := ("sa_family=AF_INET6").data

/-- Literal `sa_family=AF_INET` inside the sockaddr block of the pattern. -/
def aLit : List Char := ("sa_family=AF_INET").data

/-- Literal `sin_port=htons(` inside the sockaddr block of the pattern. -/
def bLit : List Char := ("sin_port=htons(").data

/-- Literal `sin_addr=inet_addr("` inside the sockaddr block of the pattern. -/
def cLit : List Char := ("sin_addr=inet_addr(\"").data

/-- Match a literal at the head of `s`; on success return the rest. -/
def lit (pat s : List Char) : Option (List Char) :=
  if pat.isPrefixOf s then some (s.drop pat.length) else none

/-- Value of a run of ASCII digits, as Python `int` (never fails on `\d+`). -/
def natOfDigits (ds : List Char) : ℕ :=
  ds.foldl (fun acc c => 10 * acc + (c.toNat - 48)) 0

/-- Value of the return-code group `-?\d+`, as Python `int`. -/
def intOfRet : List Char → ℤ
  | '-' :: ds => -(natOfDigits ds : ℤ)
  | ds => (natOfDigits ds : ℤ)

/-- Powers of ten, for the decimal value of a fractional part. -/
def pow10 : ℕ → ℕ
  | 0 => 1
  | n + 1 => 10 * pow10 n

/-- Python `float(s)` on a string drawn from the class `[\d.]+`: it succeeds
iff the string has at most one dot and at least one digit, and its value is
the exact decimal value (floats are modelled as exact rationals): the digits
with the dot removed, divided by ten to the length of the fractional part. -/
def pyFloat (ts : List Char) : Option ℚ :=
  if ts.count '.' ≤ 1 ∧ ts.any (fun c => c.isDigit) then
    some (Rat.divInt
      (natOfDigits
        (ts.takeWhile (fun c => c ≠ '.') ++ (ts.dropWhile (fun c => c ≠ '.')).tail) : ℤ)
      ((pow10 ((ts.dropWhile (fun c => c ≠ '.')).tail).length : ℕ) : ℤ))
  else none

/-- Captured groups of the source pattern, as the raw matched strings:
pid `(\d+)`, timestamp `([\d.]+)`, port `(\d+)`, ip `([^"]+)`,
return code `(-?\d+)`, optional errno `(\w+)`. -/
structure RawGroups where
  pid : List Char
  ts : List Char
  port : List Char
  ip : List Char
  ret : List Char
  errno : Option (List Char)
deriving DecidableEq

/-- Unit `sin_addr=inet_addr\("([^"]+)"\)` at the head of `s`:
the literal, then a nonempty run of non-quote characters (the captured ip),
then `"` and `)`. -/
def tryC (s : List Char) : Option (List Char) :=
  match lit cLit s with
  | none => none
  | some s1 =>
    let ip := s1.takeWhile (fun c => c ≠ '"')
    if ip = [] then none
    else
      match s1.dropWhile (fun c => c ≠ '"') with
      | '"' :: ')' :: _ => some ip
      | _ => none

/-- Unit `sin_port=htons\((\d+)\)` at the head of `s`: on success return the
captured digits and the rest after the closing parenthesis. -/
def tryB (s : List Char) : Option (List Char × List Char) :=
  match lit bLit s with
  | none => none
  | some s1 =>
    let ds := s1.takeWhile Char.isDigit
    if ds = [] then none
    else
      match s1.dropWhile Char.isDigit with
      | ')' :: s2 => some (ds, s2)
      | _ => none

/-- Rightmost occurrence of the `sin_addr` unit in the (brace-free) region.
The enclosing `[^}]*` quantifiers of the pattern are greedy, so the Python
engine commits to the last occurrence that completes; the recursion prefers
a match found further right. -/
def matchCUnit : List Char → Option (List Char)
  | [] => none
  | c :: cs =>
    match matchCUnit cs with
    | some ip => some ip
    | none => tryC (c :: cs)

/-- Rightmost occurrence of the `sin_port` unit that is still followed by a
`sin_addr` unit; returns the captured port digits and ip characters. -/
def matchBC : List Char → Option (List Char × List Char)
  | [] => none
  | c :: cs =>
    match matchBC cs with
    | some r => some r
    | none =>
      match tryB (c :: cs) with
      | none => none
      | some (port, rest) => (matchCUnit rest).map (fun ip => (port, ip))

/-- Rightmost occurrence of the `sa_family=AF_INET` literal that is still
followed by the port and address units, inside the brace-free region. -/
def matchABC : List Char → Option (List Char × List Char)
  | [] => none
  | c :: cs =>
    match matchABC cs with
    | some r => some r
    | none =>
      match lit aLit (c :: cs) with
      | none => none
      | some rest => matchBC rest

/-- Attempt the full pattern at the start of `s`.  This is a hand compilation
of the source regex

`(\d+)\s+([\d.]+)\s+connect\([^,]+,\s*\{[^}]*sa_family=AF_INET[^}]*`
`sin_port=htons\((\d+)\)[^}]*sin_addr=inet_addr\("([^"]+)"\)[^}]*\}`
`[^)]*\)\s*=\s*(-?\d+)(?:\s+(\w+))?`

into a deterministic matcher: every greedy run over a character class that
excludes the following delimiter is a maximal `takeWhile` run (the engine can
never give characters back across the delimiter), the sockaddr block between
`{` and the first following `}` is handled by `matchABC` with the engine's
rightmost preference, and the trailing errno group is optional.
`matchHead` covers the pattern up to and including the opening brace,
returning the pid and timestamp captures and the rest of the line. -/
def matchHead (s : List Char) : Option (List Char × List Char × List Char) :=
  let pid := s.takeWhile Char.isDigit
  if pid = [] then none else
  let s1 := s.dropWhile Char.isDigit
  if s1.takeWhile isWsC = [] then none else
  let s2 := s1.dropWhile isWsC
  let ts := s2.takeWhile isTsC
  if ts = [] then none else
  let s3 := s2.dropWhile isTsC
  if s3.takeWhile isWsC = [] then none else
  let s4 := s3.dropWhile isWsC
  match lit connectLit s4 with
  | none => none
  | some s5 =>
    if s5.takeWhile (fun c => c ≠ ',') = [] then none else
    match s5.dropWhile (fun c => c ≠ ',') with
    | [] => none
    | _ :: s7 =>
      match s7.dropWhile isWsC with
      | '{' :: s9 => some (pid, ts, s9)
      | _ => none

/-- Tail of the pattern after the closing brace of the sockaddr block:
`[^)]*\)\s*=\s*(-?\d+)(?:\s+(\w+))?`; returns the return-code characters
(sign included) and the optional errno word. -/
def matchRet (s10 : List Char) : Option (List Char × Option (List Char)) :=
  match s10.dropWhile (fun c => c ≠ ')') with
  | [] => none
  | _ :: s11 =>
    match s11.dropWhile isWsC with
    | '=' :: s13 =>
      let s14 := s13.dropWhile isWsC
      let sign : List Char :=
        match s14 with
        | '-' :: _ => ['-']
        | _ => []
      let s15 := if sign = [] then s14 else s14.tail
      let digs := s15.takeWhile Char.isDigit
      if digs = [] then none else
      let s16 := s15.dropWhile Char.isDigit
      let errno : Option (List Char) :=
        if s16.takeWhile isWsC = [] then none
        else
          let w := (s16.dropWhile isWsC).takeWhile isWordC
          if w = [] then none else some w
      some (sign ++ digs, errno)
    | _ => none

def matchAt (s : List Char) : Option RawGroups :=
  match matchHead s with
  | none => none
  | some (pid, ts, s9) =>
    let region := s9.takeWhile (fun c => c ≠ '}')
    match s9.dropWhile (fun c => c ≠ '}') with
    | [] => none
    | _ :: s10 =>
      match matchABC region with
      | none => none
      | some (port, ip) =>
        match matchRet s10 with
        | none => none
        | some (ret, errno) => some ⟨pid, ts, port, ip, ret, errno⟩

/-- Model of `re.search`: try the pattern at every start position, leftmost
first. -/
def searchFrom : List Char → Option RawGroups
  | [] => none
  | c :: cs =>
    match matchAt (c :: cs) with
    | some g => some g
    | none => searchFrom cs

/-- Connection event dictionary produced by `parse_strace_line`. -/
structure Event where
  ts : ℚ
  pid : ℕ
  event : String
  family : String
  proto : String
  dst_ip : String
  dst_port : ℕ
  result : String
  errno : Option String
deriving DecidableEq

/-- Construct the event dictionary from the matched groups, exactly as the
source does after a successful match. -/
def mkEvent (tsv : ℚ) (g : RawGroups) : Event :=
  { ts := tsv
    pid := natOfDigits g.pid
    event := "connect"
    family := "inet"
    proto := "tcp"
    dst_ip := String.mk g.ip
    dst_port := natOfDigits g.port
    result := if intOfRet g.ret = 0 then "ok" else "error"
    errno := g.errno.map String.mk }

/-- Model of `parse_strace_line`.  The candidate test is the pair of Python
`in` checks; a non-candidate or unmatched line yields no event; after a
match, `float(match.group(2))` can raise `ValueError`, modelled by the
`.error` branch. -/
def parse_strace_line (line : List Char) : Except PyExn (Option Event) :=
  if connectLit <:+: line ∧ afinetLit <:+: line then
    match searchFrom line with
    | none => Except.ok none
    | some g =>
      match pyFloat g.ts with
      | none => Except.error (PyExn.valueError "could not convert string to float")
      | some tsv => Except.ok (some (mkEvent tsv g))
  else Except.ok none

/-- Model of iterating `parse_strace_file` over the lines of a trace file:
the events emitted before any exception, together with the exception (if
any) that iteration raises. -/
def parse_strace_file : List (List Char) → List Event × Option PyExn
  | [] => ([], none)
  | l :: ls =>
    match parse_strace_line l with
    | Except.error e => ([], some e)
    | Except.ok none => parse_strace_file ls
    | Except.ok (some ev) =>
      ((parse_strace_file ls).1.cons ev, (parse_strace_file ls).2)

end StraceParser

namespace Backend

/-- Event schema of the backend (`src/backend/app/schemas.py`), restricted to
the fields that `compute_aggregates` and `calculate_flags` read. -/
structure EventSchema where
  ts : ℚ
  pid : ℤ
  event : String
  family : String
  proto : String
  dst_ip : String
  dst_port : ℤ
  result : String
  errno : Option String := none
  resolved_domain : Option String := none
deriving DecidableEq

/-- Destination key `(e.dst_ip, e.dst_port)` used throughout the source. -/
def key (e : EventSchema) : String × ℤ := (e.dst_ip, e.dst_port)

/-- Keys of a Python `Counter` built from a list, in insertion order:
distinct values in order of first occurrence.  The recursion is structural on
a fuel argument so that the definition evaluates by reduction; each step
consumes one list element, so fuel equal to the length never runs out. -/
def firstSeenAux {α : Type _} [DecidableEq α] : ℕ → List α → List α
  | 0, _ => []
  | _, [] => []
  | fuel + 1, a :: l => a :: firstSeenAux fuel (l.filter (fun b => b != a))

/-- Keys of `Counter(l)` in insertion order (first occurrence). -/
def firstSeen {α : Type _} [DecidableEq α] (l : List α) : List α :=
  firstSeenAux l.length l

/-- Order used by `Counter.most_common`: descending count, ties broken by the
position in insertion order.  The first component is that position, so the
relation is a linear order on distinct positions; sorting by it reproduces
the stable descending sort `most_common` is documented to perform. -/
def mcRel {α : Type _} (x y : ℕ × (α × ℕ)) : Prop :=
  y.2.2 < x.2.2 ∨ (x.2.2 = y.2.2 ∧ x.1 ≤ y.1)

instance {α : Type _} : DecidableRel (@mcRel α) := fun _ _ => instDecidableOr

instance {α : Type _} : IsTotal (ℕ × (α × ℕ)) mcRel where
  total x y := by
    rcases lt_trichotomy x.2.2 y.2.2 with h | h | h
    · exact Or.inr (Or.inl h)
    · rcases Nat.le_total x.1 y.1 with h1 | h1
      · exact Or.inl (Or.inr ⟨h, h1⟩)
      · exact Or.inr (Or.inr ⟨h.symm, h1⟩)
    · exact Or.inl (Or.inl h)

instance {α : Type _} : IsTrans (ℕ × (α × ℕ)) mcRel where
  trans x y z hxy hyz := by
    rcases hxy with h1 | ⟨h1, h1'⟩ <;> rcases hyz with h2 | ⟨h2, h2'⟩
    · exact Or.inl (h2.trans h1)
    · exact Or.inl (h2 ▸ h1)
    · exact Or.inl (h1 ▸ h2)
    · exact Or.inr ⟨h1.trans h2, h1'.trans h2'⟩

/-- The `(value, count)` pairs of `Counter(l)`, in insertion order. -/
def counterPairs {α : Type _} [DecidableEq α] (l : List α) : List (α × ℕ) :=
  (firstSeen l).map (fun a => (a, l.count a))

/-- Index of the first occurrence of a value in a list (the length if the
value is absent); used to state the first-seen tie-break. -/
def firstIdx {α : Type _} [DecidableEq α] (l : List α) (k : α) : ℕ :=
  l.findIdx (fun x => decide (x = k))

/-- `Counter(l).most_common()`: all pairs sorted by count descending, ties in
first-encountered order (sorting the position-tagged pairs by `mcRel`). -/
def counterSort {α : Type _} [DecidableEq α] (l : List α) : List (α × ℕ) :=
  ((counterPairs l).enum.insertionSort mcRel).map Prod.snd

/-- `Counter(l).most_common(n)`. -/
def mostCommon {α : Type _} [DecidableEq α] (n : ℕ) (l : List α) : List (α × ℕ) :=
  (counterSort l).take n

/-- Python truthiness of an optional string: `None` and `""` are falsy. -/
def pyTruthy (o : Option String) : Bool :=
  match o with
  | none => false
  | some s => s != ""

/-- Dominant protocol for a destination key: the most common `proto` among
the events with that key, ties to the first encountered; `"unknown"` is the
`dict.get` default, returned when no event carries the key. -/
def dominantProto (E : List EventSchema) (k : String × ℤ) : String :=
  match counterSort ((E.filter (fun e => key e == k)).map EventSchema.proto) with
  | [] => "unknown"
  | p :: _ => p.1

/-- One entry of the `top_destinations` list. -/
structure TopDest where
  dst_ip : String
  dst_port : ℤ
  proto : String
  count : ℕ
  domain : Option String
deriving DecidableEq

/-- Build one `top_destinations` entry from a `(key, count)` pair; the domain
is `next((e.resolved_domain for e in events if key matches and truthy), None)`. -/
def mkTopDest (E : List EventSchema) (kc : (String × ℤ) × ℕ) : TopDest :=
  { dst_ip := kc.1.1
    dst_port := kc.1.2
    proto := dominantProto E kc.1
    count := kc.2
    domain := (E.find? (fun e => key e == kc.1 && pyTruthy e.resolved_domain)).bind
      EventSchema.resolved_domain }

/-- The `top_destinations` list: `dest_counter.most_common(50)` mapped to
entries. -/
def topDestinations (E : List EventSchema) : List TopDest :=
  (mostCommon 50 (E.map key)).map (mkTopDest E)

/-- Result of `compute_aggregates`. -/
structure Aggregates where
  total_events : ℕ
  unique_ips : ℕ
  unique_ports : ℕ
  unique_destinations : ℕ
  failures : ℕ
  failure_rate : ℚ
  top_destinations : List TopDest
deriving DecidableEq

/-- Model of `compute_aggregates` (`src/backend/app/main.py`).  Python `set`
cardinalities are `dedup.length`; the float division for `failure_rate` is
modelled as exact rational division. -/
def compute_aggregates (E : List EventSchema) : Aggregates :=
  if E = [] then ⟨0, 0, 0, 0, 0, 0, []⟩
  else
    { total_events := E.length
      unique_ips := (E.map EventSchema.dst_ip).dedup.length
      unique_ports := (E.map EventSchema.dst_port).dedup.length
      unique_destinations := (E.map key).dedup.length
      failures := E.countP (fun e => e.result != "ok")
      failure_rate :=
        if 0 < E.length then (E.countP (fun e => e.result != "ok") : ℚ) / (E.length : ℚ)
        else 0
      top_destinations := topDestinations E }

/-- A raised flag (name and severity; the description strings of the source
are presentation-only interpolations of the already-modelled numbers and are
not part of the model). -/
structure Flag where
  name : String
  severity : String
deriving DecidableEq

/-- Module constant `HIGH_DEST_THRESHOLD = 50`. -/
def HIGH_DEST_THRESHOLD : ℕ := 50

/-- Module constant `FAILURE_THRESHOLD = 0.10` (the exact rational one tenth;
floats are modelled as exact rationals). -/
def FAILURE_THRESHOLD : ℚ := Rat.divInt 1 10

/-- Module constant `USUAL_PORTS = \x7b80, 443, 53, 22\x7d`. -/
def USUAL_PORTS : Finset ℤ := {80, 443, 53, 22}

/-- Model of `calculate_flags`, with the three module-level threshold
constants lifted into parameters (the algorithm reads them by name and never
mutates them).  Each flag is computed independently and the results are
concatenated.  The third flag tests `set(...)` nonemptiness, modelled by
nonemptiness of the corresponding filter. -/
def calculate_flags (highDestThreshold : ℕ) (failureThreshold : ℚ)
    (usualPorts : Finset ℤ) (events : List EventSchema) (summary : Aggregates) :
    List Flag :=
  (if highDestThreshold < summary.unique_destinations then
    [⟨"High unique destinations", "medium"⟩] else [])
  ++ (if failureThreshold < summary.failure_rate then
    [⟨"Elevated failure rate", "medium"⟩] else [])
  ++ (if events.filter (fun e => decide (e.dst_port ∉ usualPorts)) ≠ [] then
    [⟨"Unusual ports", "medium"⟩] else [])

/-- `calculate_flags` as the source runs it, at the module constants. -/
def calculate_flags_src (events : List EventSchema) (summary : Aggregates) : List Flag :=
  calculate_flags HIGH_DEST_THRESHOLD FAILURE_THRESHOLD USUAL_PORTS events summary

end Backend

namespace Watch

open StraceParser

/-- Parameters of `run_docker_command` (`src/cli/egresslens/docker_runner.py`,
its `def` line): `command`, `work_dir`, `image`, `strace_output_path`; none
of them has a default value. -/
def runDockerCommandParams : List String :=
  ["command", "work_dir", "image", "strace_output_path"]

/-- Keyword arguments of the call `run_docker_command(...)` in
`watch_command` (`src/cli/egresslens/watch.py`). -/
def watchCallKwargs : List String :=
  ["command", "work_dir", "image", "strace_output_path", "logs_output_path"]

/-- Python call binding for a call made purely with keyword arguments to a
function without defaults: every keyword must name a parameter and every
parameter must be bound, otherwise the call raises `TypeError`. -/
def bindOk (params kwargs : List String) : Bool :=
  kwargs.all (fun k => params.contains k) && params.all (fun p => kwargs.contains p)

/-- The pieces of the environment that `run_docker_command` would report if
the call to it bound: the container exit code, the error message of a failed
launch (`None` on success), and the lines of the strace artifact it leaves
behind. -/
structure SandboxOutcome where
  exit_code : ℤ
  error : Option String
  straceLines : List (List Char)

/-- The Run Result assembled by `watch_command`: metadata written to
`run.json` (`generate_metadata` in `src/cli/egresslens/metadata.py`) plus the
warning printed for a sandbox error.  The JSONL round trip through
`parse_to_jsonl` / `count_events_from_jsonl` is modelled as counting over
the parsed events directly, keeping the truthiness filters of
`count_events_from_jsonl`. -/
structure RunResult where
  exit_code : ℤ
  total_events : ℕ
  unique_dst_ips : ℕ
  unique_dst_ip_ports : ℕ
  warning : Option String
deriving DecidableEq

/-- Model of `watch_command`: it first calls `run_docker_command` with the
keyword arguments listed above; if the call binds, the pipeline parses the
strace artifact, counts events and produces the Run Result; a `TypeError`
from the call, or an exception from the parse, propagates to the caller. -/
def watch_command (env : SandboxOutcome) (command : List String) (image : String) :
    Except PyExn RunResult :=
  if bindOk runDockerCommandParams watchCallKwargs then
    match (parse_strace_file env.straceLines).2 with
    | some e => Except.error e
    | none =>
      let events := (parse_strace_file env.straceLines).1
      Except.ok
        { exit_code := env.exit_code
          total_events := events.length
          unique_dst_ips :=
            ((events.filter (fun e => e.dst_ip != "")).map Event.dst_ip).dedup.length
          unique_dst_ip_ports :=
            ((events.filter (fun e => e.dst_ip != "" && e.dst_port != 0)).map
              (fun e => (e.dst_ip, e.dst_port))).dedup.length
          warning := env.error }
  else
    Except.error (PyExn.typeError
      "run_docker_command() got an unexpected keyword argument logs_output_path")

end Watch

/-! Concrete trace lines used to evaluate the model, written with
`\x7b` and `\x7d` for the brace characters. -/

/-- A well-formed successful connect line (from the repository test suite). -/
def sampleLine : List Char :=
  ("12345 1707150823.512 connect(3, \x7bsa_family=AF_INET, sin_port=htons(443), sin_addr=inet_addr(\"151.101.1.69\")\x7d, 16) = 0").data

/-- The groups the pattern captures on `sampleLine`. -/
def sampleGroups : StraceParser.RawGroups :=
  ⟨("12345").data, ("1707150823.512").data, ("443").data,
    ("151.101.1.69").data, ("0").data, none⟩

/-- The event the parser emits for `sampleLine`. -/
def sampleEvent : StraceParser.Event :=
  { ts := Rat.divInt 1707150823512 1000
    pid := 12345
    event := "connect"
    family := "inet"
    proto := "tcp"
    dst_ip := "151.101.1.69"
    dst_port := 443
    result := "ok"
    errno := none }

/-- A connect line whose syscall returned `-1 EINPROGRESS` (non-blocking
connection in progress). -/
def einprogressLine : List Char :=
  ("8 3.5 connect(3, \x7bsa_family=AF_INET, sin_port=htons(8080), sin_addr=inet_addr(\"5.6.7.8\")\x7d, 16) = -1 EINPROGRESS").data

/-- The event the parser emits for `einprogressLine`. -/
def einprogressEvent : StraceParser.Event :=
  { ts := Rat.divInt 35 10
    pid := 8
    event := "connect"
    family := "inet"
    proto := "tcp"
    dst_ip := "5.6.7.8"
    dst_port := 8080
    result := "error"
    errno := some "EINPROGRESS" }

/-- A connect line whose port field holds the numeral 99999, above 65535. -/
def bigPortLine : List Char :=
  ("7 1700000000.1 connect(3, \x7bsa_family=AF_INET, sin_port=htons(99999), sin_addr=inet_addr(\"1.2.3.4\")\x7d, 16) = 0").data

/-- The event the parser emits for `bigPortLine`. -/
def bigPortEvent : StraceParser.Event :=
  { ts := Rat.divInt 17000000001 10
    pid := 7
    event := "connect"
    family := "inet"
    proto := "tcp"
    dst_ip := "1.2.3.4"
    dst_port := 99999
    result := "ok"
    errno := none }

/-- A line whose timestamp field is the single character `.`: it satisfies
the pattern class `[\d.]+` but Python `float` rejects it. -/
def dotTsLine : List Char :=
  ("1 . connect(3, \x7bsa_family=AF_INET, sin_port=htons(80), sin_addr=inet_addr(\"1.2.3.4\")\x7d, 16) = 0").data

/-- A line that contains both a complete IPv4 connect record and, in trailing
text, the IPv6 family marker `sa_family=AF_INET6`. -/
def mixedInet6Line : List Char :=
  ("9 2.0 connect(3, \x7bsa_family=AF_INET, sin_port=htons(443), sin_addr=inet_addr(\"1.2.3.4\")\x7d, 16) = 0 sa_family=AF_INET6").data

/-- The event the parser emits for `mixedInet6Line` (the trailing word
`sa_family` even lands in the errno group). -/
def mixedInet6Event : StraceParser.Event :=
  { ts := (2 : ℚ)
    pid := 9
    event := "connect"
    family := "inet"
    proto := "tcp"
    dst_ip := "1.2.3.4"
    dst_port := 443
    result := "ok"
    errno := some "sa_family" }

/-- A realistic IPv6 connect line as strace prints it. -/
def inet6Line : List Char :=
  ("12348 1707150826.789 connect(5, \x7bsa_family=AF_INET6, sin6_port=htons(443), sin6_flowinfo=htonl(0), inet_pton(AF_INET6, \"::1\", &sin6_addr), sin6_scope_id=0\x7d, 28) = 0").data

/-- A single event to port 4444: it raises the `Unusual ports` flag under
the source thresholds, hence also under lower thresholds and a smaller
allow-set. -/
def unusualEvent : Backend.EventSchema :=
  { ts := 1
    pid := 1
    event := "connect"
    family := "inet"
    proto := "tcp"
    dst_ip := "1.2.3.4"
    dst_port := 4444
    result := "ok" }

/-- Summary used by the monotonicity witness: one destination, no failures. -/
def flagSummary : Backend.Aggregates := ⟨1, 1, 1, 1, 0, 0, []⟩

/-- The single destination entry the aggregation produces for one event to
port 4444. -/
def sampleTopDest : Backend.TopDest :=
  { dst_ip := "1.2.3.4", dst_port := 4444, proto := "tcp", count := 1, domain := none }

/-- C1: contrary to the specification, the watch pipeline never completes:
every invocation raises `TypeError`, because `watch_command` passes the
keyword argument `logs_output_path` to `run_docker_command`, whose signature
does not accept it.  No Run Result is ever produced, for any sandbox
outcome, command or image. -/
theorem watch_command_always_raises_typeError (env : Watch.SandboxOutcome)
    (command : List String) (image : String) :
    Watch.watch_command env command image =
      Except.error (StraceParser.PyExn.typeError
        "run_docker_command() got an unexpected keyword argument logs_output_path") := by
  unfold Watch.watch_command
  have hb : Watch.bindOk Watch.runDockerCommandParams Watch.watchCallKwargs = false := by decide
  rw [hb]
  rfl

/-- C6: for every event list `E`, the aggregation counts as failures exactly
the events whose result is not `"ok"`, and the failure rate is that count
divided by the length of `E` (an exact rational here; `0` for the empty
list). -/
theorem compute_aggregates_failure_stats (E : List Backend.EventSchema) :
    (Backend.compute_aggregates E).failures =
      E.countP (fun e => decide (e.result ≠ "ok")) ∧
    (Backend.compute_aggregates E).failure_rate =
      (((Backend.compute_aggregates E).failures : ℚ) / (E.length : ℚ)) ∧
    (Backend.compute_aggregates []).failure_rate = 0 := by
  have hpred : ∀ e : Backend.EventSchema,
      (e.result != "ok") = decide (e.result ≠ "ok") := by
    intro e
    by_cases h : e.result = "ok" <;> simp [h]
  by_cases h : E = []
  · subst h
    refine ⟨rfl, ?_, rfl⟩
    simp [Backend.compute_aggregates]
  · have hcount : E.countP (fun e => e.result != "ok") =
        E.countP (fun e => decide (e.result ≠ "ok")) := by
      congr 1
      funext e
      exact hpred e
    have hlen : 0 < E.length := List.length_pos.mpr h
    refine ⟨?_, ?_, rfl⟩
    · simp only [Backend.compute_aggregates, if_neg h]
      exact hcount
    · simp only [Backend.compute_aggregates, if_neg h, if_pos hlen]

/-- C8: flag derivation is monotonic in the thresholds: with the same events
and summary, lowering the destination threshold, lowering the failure-rate
threshold, or shrinking the allowed-port set can only add flags — every flag
raised under the higher configuration is raised under the lower one.  The
model takes the three thresholds as parameters of `calculate_flags`. -/
theorem calculate_flags_monotone (hd1 hd2 : ℕ) (ft1 ft2 : ℚ) (u1 u2 : Finset ℤ)
    (E : List Backend.EventSchema) (S : Backend.Aggregates)
    (hhd : hd2 ≤ hd1) (hft : ft2 ≤ ft1) (hu : u2 ⊆ u1) :
    ∀ f ∈ Backend.calculate_flags hd1 ft1 u1 E S,
      f ∈ Backend.calculate_flags hd2 ft2 u2 E S := by
  intro f hf
  unfold Backend.calculate_flags at hf ⊢
  simp only [List.mem_append] at hf ⊢
  rcases hf with (hf | hf) | hf
  · left; left
    split at hf
    case isTrue hc => rw [if_pos (lt_of_le_of_lt hhd hc)]; exact hf
    case isFalse => simp at hf
  · left; right
    split at hf
    case isTrue hc => rw [if_pos (lt_of_le_of_lt hft hc)]; exact hf
    case isFalse => simp at hf
  · right
    split at hf
    case isTrue hc =>
      rw [if_pos ?_]
      · exact hf
      · intro hnil
        apply hc
        rw [List.filter_eq_nil_iff] at hnil ⊢
        intro a ha hp
        rw [decide_eq_true_eq] at hp
        exact hnil a ha (by
          rw [decide_eq_true_eq]
          intro h2
          exact hp (hu h2))
    case isFalse => simp at hf

/-- C9: with the source thresholds, each of the three flags is present in the
result exactly when its own condition holds (flags are evaluated
independently and all applicable ones are returned); in particular the
`Unusual ports` flag is present iff some event has a destination port outside
the allow-set 80, 443, 53, 22. -/
theorem calculate_flags_each_iff (E : List Backend.EventSchema) (S : Backend.Aggregates) :
    ((⟨"High unique destinations", "medium"⟩ : Backend.Flag) ∈
        Backend.calculate_flags_src E S ↔
      Backend.HIGH_DEST_THRESHOLD < S.unique_destinations) ∧
    ((⟨"Elevated failure rate", "medium"⟩ : Backend.Flag) ∈
        Backend.calculate_flags_src E S ↔
      Backend.FAILURE_THRESHOLD < S.failure_rate) ∧
    ((⟨"Unusual ports", "medium"⟩ : Backend.Flag) ∈
        Backend.calculate_flags_src E S ↔
      ∃ e ∈ E, e.dst_port ∉ Backend.USUAL_PORTS) := by
  have hfilter : E.filter (fun e => decide (e.dst_port ∉ Backend.USUAL_PORTS)) ≠ [] ↔
      ∃ e ∈ E, e.dst_port ∉ Backend.USUAL_PORTS := by
    rw [Ne, List.filter_eq_nil_iff]
    push_neg
    simp only [decide_eq_true_eq]
  unfold Backend.calculate_flags_src Backend.calculate_flags
  simp only [List.mem_append, List.mem_singleton]
  rw [← hfilter]
  split_ifs with h1 h2 h3 <;>
    simp_all [Backend.Flag.mk.injEq]

theorem calculate_flags_monotone_witness :
    (⟨"Unusual ports", "medium"⟩ : Backend.Flag) ∈
      Backend.calculate_flags 10 0 {80} [unusualEvent] flagSummary :=
  calculate_flags_monotone Backend.HIGH_DEST_THRESHOLD 10 Backend.FAILURE_THRESHOLD
    0 Backend.USUAL_PORTS {80} [unusualEvent] flagSummary
    (by decide) (by decide) (by decide)
    ⟨"Unusual ports", "medium"⟩ (by decide)

/-- Inversion of a successful parse: the pattern matched, the timestamp
converted, and the event is `mkEvent` of the captured groups. -/
theorem parse_strace_line_ok_some {line : List Char} {e : StraceParser.Event}
    (he : StraceParser.parse_strace_line line = Except.ok (some e)) :
    ∃ g tsv, StraceParser.searchFrom line = some g ∧
      StraceParser.pyFloat g.ts = some tsv ∧ e = StraceParser.mkEvent tsv g := by
  unfold StraceParser.parse_strace_line at he
  split at he
  case isTrue =>
    cases hg : StraceParser.searchFrom line with
    | none => rw [hg] at he; simp at he
    | some g =>
      simp only [hg] at he
      cases hf : StraceParser.pyFloat g.ts with
      | none => simp only [hf] at he; exact Except.noConfusion he
      | some tsv =>
        simp only [hf, Except.ok.injEq, Option.some.injEq] at he
        exact ⟨g, tsv, rfl, hf, he.symm⟩
  case isFalse => simp at he

/-- C2 (amended): the `result` field of an emitted event is `"ok"` iff the
matched numeric return value is `0`; every other return value — including
`-1` with `EINPROGRESS` — yields `"error"`. -/
theorem parse_result_ok_iff_ret_zero (line : List Char) (g : StraceParser.RawGroups)
    (e : StraceParser.Event) (hg : StraceParser.searchFrom line = some g)
    (he : StraceParser.parse_strace_line line = Except.ok (some e)) :
    (e.result = "ok" ↔ StraceParser.intOfRet g.ret = 0) := by
  obtain ⟨g', tsv, hg', hf, rfl⟩ := parse_strace_line_ok_some he
  rw [hg] at hg'
  injection hg' with h
  subst h
  by_cases h0 : StraceParser.intOfRet g.ret = 0 <;>
    simp [StraceParser.mkEvent, h0]

/-- C2 counterexample: on a non-blocking connect returning `-1 EINPROGRESS`
the parser emits `result = "error"`, not `"ok"` as the claim states. -/
theorem parse_einprogress_is_error :
    StraceParser.parse_strace_line einprogressLine = Except.ok (some einprogressEvent) ∧
      einprogressEvent.errno = some "EINPROGRESS" ∧
      einprogressEvent.result = "error" ∧ einprogressEvent.result ≠ "ok" :=
  ⟨by decide, by decide, by decide, by decide⟩

/-- Witness for `parse_result_ok_iff_ret_zero` at the sample line. -/
theorem parse_result_ok_iff_ret_zero_witness :
    (sampleEvent.result = "ok" ↔ StraceParser.intOfRet sampleGroups.ret = 0) :=
  parse_result_ok_iff_ret_zero sampleLine sampleGroups sampleEvent (by decide) (by decide)

/-- C3 (amended): an emitted event carries the port numeral and address text
verbatim from the structural match (so the port is a nonnegative integer, in
`[0, 65535]` whenever the numeral is at most `65535`, but the parser imposes
no upper bound itself), and a line with no structural match yields no event
at all — never an event with default values. -/
theorem parse_port_verbatim (line : List Char) :
    (∀ g e, StraceParser.searchFrom line = some g →
        StraceParser.parse_strace_line line = Except.ok (some e) →
        e.dst_port = StraceParser.natOfDigits g.port ∧ e.dst_ip = String.mk g.ip) ∧
    (StraceParser.searchFrom line = none →
        StraceParser.parse_strace_line line = Except.ok none) := by
  constructor
  · intro g e hg he
    obtain ⟨g', tsv, hg', hf, rfl⟩ := parse_strace_line_ok_some he
    rw [hg] at hg'
    injection hg' with h
    subst h
    exact ⟨rfl, rfl⟩
  · intro hn
    unfold StraceParser.parse_strace_line
    split
    · rw [hn]
    · rfl

/-- C3 counterexample: a line with `sin_port=htons(99999)` produces an event
with `dst_port = 99999`, outside `[0, 65535]`. -/
theorem parse_emits_port_99999 :
    StraceParser.parse_strace_line bigPortLine = Except.ok (some bigPortEvent) ∧
      bigPortEvent.dst_port = 99999 ∧ ¬ bigPortEvent.dst_port ≤ 65535 :=
  ⟨by decide, by decide, by decide⟩

/-- Witness for `parse_port_verbatim` at the sample line. -/
theorem parse_port_verbatim_witness :
    sampleEvent.dst_port = StraceParser.natOfDigits sampleGroups.port ∧
      sampleEvent.dst_ip = String.mk sampleGroups.ip :=
  (parse_port_verbatim sampleLine).1 sampleGroups sampleEvent (by decide) (by decide)

/-- C10: every emitted event has the constant fields `event = "connect"`,
`family = "inet"` and `proto = "tcp"`; in particular no emitted event ever
has protocol `"udp"`. -/
theorem parse_constant_fields (line : List Char) (e : StraceParser.Event)
    (he : StraceParser.parse_strace_line line = Except.ok (some e)) :
    e.event = "connect" ∧ e.family = "inet" ∧ e.proto = "tcp" ∧ e.proto ≠ "udp" := by
  obtain ⟨g, tsv, hg, hf, rfl⟩ := parse_strace_line_ok_some he
  refine ⟨rfl, rfl, rfl, ?_⟩
  show ("tcp" : String) ≠ "udp"
  decide

/-- Witness for `parse_constant_fields` at the sample line. -/
theorem parse_constant_fields_witness :
    sampleEvent.event = "connect" ∧ sampleEvent.family = "inet" ∧
      sampleEvent.proto = "tcp" ∧ sampleEvent.proto ≠ "udp" :=
  parse_constant_fields sampleLine sampleEvent (by decide)

/-- C4: the parser is not exception-free: on a line whose timestamp field is
`.` (which matches the pattern class `[\d.]+`), the float conversion raises
`ValueError`, so iterating the parser over a file containing that line
raises instead of skipping it. -/
theorem parse_raises_valueError_on_dot_timestamp :
    StraceParser.parse_strace_line dotTsLine =
      Except.error (StraceParser.PyExn.valueError "could not convert string to float") ∧
    (StraceParser.parse_strace_file [dotTsLine]).2 =
      some (StraceParser.PyExn.valueError "could not convert string to float") :=
  ⟨by decide, by decide⟩

/-- C5 counterexample: a line containing the IPv6 family marker
`sa_family=AF_INET6` in trailing text, after a complete IPv4 connect record,
does emit an event — the marker alone does not exclude a line. -/
theorem parse_inet6_marker_line_emits_event :
    StraceParser.af6Lit <:+: mixedInet6Line ∧
      StraceParser.parse_strace_line mixedInet6Line = Except.ok (some mixedInet6Event) :=
  ⟨by decide, by decide⟩

/-- A successful literal match leaves a suffix of the input. -/
theorem lit_rest_suffix {pat s r : List Char} (h : StraceParser.lit pat s = some r) :
    r <:+ s := by
  unfold StraceParser.lit at h
  split at h
  · injection h with h
    subst h
    exact List.drop_suffix _ _
  · exact Option.noConfusion h

/-- A successful literal match means the literal is a prefix of the input. -/
theorem lit_isPrefix {pat s r : List Char} (h : StraceParser.lit pat s = some r) :
    pat <+: s := by
  unfold StraceParser.lit at h
  split at h
  case isTrue hp => exact List.isPrefixOf_iff_prefix.mp hp
  case isFalse => exact Option.noConfusion h

/-- If the `sin_addr` unit matches at the head of `s`, the `sin_addr`
literal occurs in `s`. -/
theorem tryC_isInfix {s ip : List Char} (h : StraceParser.tryC s = some ip) :
    StraceParser.cLit <:+: s := by
  unfold StraceParser.tryC at h
  cases hl : StraceParser.lit StraceParser.cLit s with
  | none => rw [hl] at h; exact Option.noConfusion h
  | some s1 => exact (lit_isPrefix hl).isInfix

/-- If the `sin_addr` unit matches anywhere in `s`, the literal occurs in `s`. -/
theorem matchCUnit_isInfix (s ip : List Char) (h : StraceParser.matchCUnit s = some ip) :
    StraceParser.cLit <:+: s := by
  induction s generalizing ip with
  | nil => exact Option.noConfusion h
  | cons c cs ih =>
    rw [StraceParser.matchCUnit] at h
    cases hrec : StraceParser.matchCUnit cs with
    | some ip' =>
      exact List.infix_cons (ih ip' hrec)
    | none =>
      rw [hrec] at h
      exact tryC_isInfix h

/-- A successful `sin_port` unit leaves a suffix of the input. -/
theorem tryB_rest_suffix {s port rest : List Char}
    (h : StraceParser.tryB s = some (port, rest)) : rest <:+ s := by
  unfold StraceParser.tryB at h
  cases hl : StraceParser.lit StraceParser.bLit s with
  | none => simp [hl] at h
  | some s1 =>
    rw [hl] at h
    simp only at h
    split at h
    · exact Option.noConfusion h
    · split at h
      case h_1 s2 heq =>
        simp only [Option.some.injEq, Prod.mk.injEq] at h
        obtain ⟨h1, h2⟩ := h
        subst h2
        exact ((List.suffix_cons ')' s2).trans
          (heq ▸ List.dropWhile_suffix Char.isDigit)).trans (lit_rest_suffix hl)
      case h_2 => exact Option.noConfusion h

/-- If `matchBC` succeeds on `s`, the `sin_addr` literal occurs in `s`. -/
theorem matchBC_isInfix (s : List Char) (r : List Char × List Char)
    (h : StraceParser.matchBC s = some r) : StraceParser.cLit <:+: s := by
  induction s generalizing r with
  | nil => exact Option.noConfusion h
  | cons c cs ih =>
    rw [StraceParser.matchBC] at h
    cases hrec : StraceParser.matchBC cs with
    | some r' => exact List.infix_cons (ih r' hrec)
    | none =>
      rw [hrec] at h
      cases htb : StraceParser.tryB (c :: cs) with
      | none => simp [htb] at h
      | some pr =>
        obtain ⟨port, rest⟩ := pr
        rw [htb] at h
        simp only at h
        cases hcu : StraceParser.matchCUnit rest with
        | none => simp [hcu] at h
        | some ip =>
          have h1 := matchCUnit_isInfix rest ip hcu
          have h2 : rest <:+ (c :: cs) := tryB_rest_suffix htb
          exact h1.trans h2.isInfix

/-- If `matchABC` succeeds on a region, the `sin_addr` literal occurs in it. -/
theorem matchABC_isInfix (s : List Char) (r : List Char × List Char)
    (h : StraceParser.matchABC s = some r) : StraceParser.cLit <:+: s := by
  induction s generalizing r with
  | nil => exact Option.noConfusion h
  | cons c cs ih =>
    rw [StraceParser.matchABC] at h
    cases hrec : StraceParser.matchABC cs with
    | some r' => exact List.infix_cons (ih r' hrec)
    | none =>
      rw [hrec] at h
      cases hl : StraceParser.lit StraceParser.aLit (c :: cs) with
      | none => rw [hl] at h; exact Option.noConfusion h
      | some rest =>
        rw [hl] at h
        exact (matchBC_isInfix rest r h).trans (lit_rest_suffix hl).isInfix

/-- A successful `matchHead` leaves a suffix of the input line. -/
theorem matchHead_rest_suffix {s pid ts s9 : List Char}
    (h : StraceParser.matchHead s = some (pid, ts, s9)) : s9 <:+ s := by
  unfold StraceParser.matchHead at h
  dsimp only at h
  split at h
  · exact Option.noConfusion h
  split at h
  · exact Option.noConfusion h
  split at h
  · exact Option.noConfusion h
  split at h
  · exact Option.noConfusion h
  split at h
  case h_1 => exact Option.noConfusion h
  case h_2 s5 hl =>
    split at h
    · exact Option.noConfusion h
    split at h
    case h_1 => exact Option.noConfusion h
    case h_2 c7 s7 heq7 =>
      split at h
      case h_2 => exact Option.noConfusion h
      case h_1 s9x heq9 =>
        simp only [Option.some.injEq, Prod.mk.injEq] at h
        obtain ⟨h1, h2, h3⟩ := h
        subst h3
        have hs9 : s9x <:+ s7 :=
          (List.suffix_cons '{' s9x).trans (heq9 ▸ List.dropWhile_suffix _)
        have hs7 : s7 <:+ s5 :=
          (List.suffix_cons c7 s7).trans (heq7 ▸ List.dropWhile_suffix _)
        have hs5 : s5 <:+ s :=
          (lit_rest_suffix hl).trans ((List.dropWhile_suffix _).trans
            ((List.dropWhile_suffix _).trans ((List.dropWhile_suffix _).trans
              (List.dropWhile_suffix _))))
        exact (hs9.trans hs7).trans hs5

/-- If the full pattern matches at the start of `s`, then `s` contains the
`sin_addr=inet_addr("` literal. -/
theorem matchAt_isInfix (s : List Char) (g : StraceParser.RawGroups)
    (h : StraceParser.matchAt s = some g) : StraceParser.cLit <:+: s := by
  unfold StraceParser.matchAt at h
  cases hh : StraceParser.matchHead s with
  | none => simp [hh] at h
  | some pts =>
    obtain ⟨pid, ts, s9⟩ := pts
    rw [hh] at h
    dsimp only at h
    split at h
    · exact Option.noConfusion h
    split at h
    · exact Option.noConfusion h
    · rename_i port ip hABC
      exact ((matchABC_isInfix _ _ hABC).trans
        (( List.takeWhile_prefix _).isInfix)).trans (matchHead_rest_suffix hh).isInfix

/-- If the search succeeds anywhere in the line, the line contains the
`sin_addr=inet_addr("` literal. -/
theorem searchFrom_isInfix (l : List Char) (g : StraceParser.RawGroups)
    (h : StraceParser.searchFrom l = some g) : StraceParser.cLit <:+: l := by
  induction l with
  | nil => exact Option.noConfusion h
  | cons c cs ih =>
    rw [StraceParser.searchFrom] at h
    cases hm : StraceParser.matchAt (c :: cs) with
    | some g' => exact matchAt_isInfix _ g' hm
    | none =>
      rw [hm] at h
      exact List.infix_cons (ih h)

/-- C5 (amended): a line that carries the IPv6 family marker and no IPv4
address field `sin_addr=inet_addr("` — as every real IPv6 strace line does —
produces no event.  Such lines still pass the substring candidate test
(`AF_INET` is a prefix of `AF_INET6`); they are dropped because the IPv4
structural pattern cannot match without its address field.  A line that
additionally contains a complete IPv4 record does produce an event. -/
theorem parse_inet6_without_inet4_field_none (line : List Char)
    (h6 : StraceParser.af6Lit <:+: line)
    (hno : ¬ StraceParser.cLit <:+: line) :
    StraceParser.parse_strace_line line = Except.ok none := by
  cases hs : StraceParser.searchFrom line with
  | some g => exact absurd (searchFrom_isInfix line g hs) hno
  | none =>
    unfold StraceParser.parse_strace_line
    split
    · rw [hs]
    · rfl

/-- Witness for `parse_inet6_without_inet4_field_none` at a realistic IPv6
strace line. -/
theorem parse_inet6_without_inet4_field_none_witness :
    StraceParser.parse_strace_line inet6Line = Except.ok none :=
  parse_inet6_without_inet4_field_none inet6Line (by decide) (by decide)

/-- Members of `firstSeenAux` come from the underlying list. -/
theorem mem_of_mem_firstSeenAux {α : Type _} [DecidableEq α] :
    ∀ (f : ℕ) (l : List α) (b : α), b ∈ Backend.firstSeenAux f l → b ∈ l := by
  intro f
  induction f with
  | zero => intro l b hb; simp [Backend.firstSeenAux] at hb
  | succ f ih =>
    intro l b hb
    cases l with
    | nil => simp [Backend.firstSeenAux] at hb
    | cons a t =>
      rw [Backend.firstSeenAux] at hb
      rcases List.mem_cons.mp hb with rfl | hb
      · exact List.mem_cons_self _ _
      · exact List.mem_cons_of_mem _ (List.mem_of_mem_filter (ih _ b hb))

/-- The first element of a list is at first index 0. -/
theorem firstIdx_cons_self {α : Type _} [DecidableEq α] (a : α) (l : List α) :
    Backend.firstIdx (a :: l) a = 0 := by
  simp [Backend.firstIdx, List.findIdx_cons]

/-- The first index of a value different from the head shifts by one. -/
theorem firstIdx_cons_ne {α : Type _} [DecidableEq α] {x a : α} (l : List α)
    (h : x ≠ a) : Backend.firstIdx (a :: l) x = Backend.firstIdx l x + 1 := by
  have ha : ¬(a = x) := fun h2 => h h2.symm
  simp [Backend.firstIdx, List.findIdx_cons, ha]

/-- Order of first occurrences transfers along a filter: if both elements
survive the filter and one precedes the other there, it precedes it in the
unfiltered list too. -/
theorem firstIdx_filter_lt {α : Type _} [DecidableEq α] (p : α → Bool) :
    ∀ (t : List α) (b c : α), b ∈ t.filter p → c ∈ t.filter p →
      Backend.firstIdx (t.filter p) b < Backend.firstIdx (t.filter p) c →
      Backend.firstIdx t b < Backend.firstIdx t c := by
  intro t
  induction t with
  | nil => intro b c hb _ _; simp at hb
  | cons x t' ih =>
    intro b c hb hc hlt
    by_cases hpx : p x = true
    · rw [List.filter_cons_of_pos hpx] at hb hc hlt
      by_cases hbx : b = x
      · subst hbx
        have hcb : c ≠ b := by
          intro h
          subst h
          exact lt_irrefl _ hlt
        rw [firstIdx_cons_self]
        rw [firstIdx_cons_ne _ hcb]
        exact Nat.succ_pos _
      · by_cases hcx : c = x
        · subst hcx
          rw [firstIdx_cons_self] at hlt
          exact absurd hlt (Nat.not_lt_zero _)
        · have hb' : b ∈ t'.filter p := by
            rcases List.mem_cons.mp hb with h | h
            · exact absurd h hbx
            · exact h
          have hc' : c ∈ t'.filter p := by
            rcases List.mem_cons.mp hc with h | h
            · exact absurd h hcx
            · exact h
          rw [firstIdx_cons_ne _ hbx, firstIdx_cons_ne _ hcx] at hlt
          rw [firstIdx_cons_ne _ hbx, firstIdx_cons_ne _ hcx]
          exact Nat.succ_lt_succ (ih b c hb' hc' (Nat.lt_of_succ_lt_succ hlt))
    · rw [List.filter_cons_of_neg hpx] at hb hc hlt
      have hbx : b ≠ x := by
        intro h
        exact hpx (h ▸ (List.mem_filter.mp hb).2)
      have hcx : c ≠ x := by
        intro h
        exact hpx (h ▸ (List.mem_filter.mp hc).2)
      rw [firstIdx_cons_ne _ hbx, firstIdx_cons_ne _ hcx]
      exact Nat.succ_lt_succ (ih b c hb hc hlt)

/-- The first-seen keys are pairwise ordered by first occurrence. -/
theorem firstSeenAux_pairwise_firstIdx {α : Type _} [DecidableEq α] :
    ∀ (f : ℕ) (l : List α),
      List.Pairwise (fun a b => Backend.firstIdx l a < Backend.firstIdx l b)
        (Backend.firstSeenAux f l) := by
  intro f
  induction f with
  | zero => intro l; simp [Backend.firstSeenAux]
  | succ f ih =>
    intro l
    cases l with
    | nil => simp [Backend.firstSeenAux]
    | cons a t =>
      rw [Backend.firstSeenAux]
      refine List.Pairwise.cons ?_ ?_
      · intro b hb
        have hbf : b ∈ t.filter (fun x => x != a) :=
          mem_of_mem_firstSeenAux _ _ b hb
        have hbne : b ≠ a := by
          have h2 := (List.mem_filter.mp hbf).2
          simpa using h2
        rw [firstIdx_cons_self, firstIdx_cons_ne _ hbne]
        exact Nat.succ_pos _
      · refine (ih (t.filter (fun x => x != a))).imp_of_mem ?_
        intro x y hx hy hr
        have hx' : x ∈ t.filter (fun b => b != a) := mem_of_mem_firstSeenAux _ _ x hx
        have hy' : y ∈ t.filter (fun b => b != a) := mem_of_mem_firstSeenAux _ _ y hy
        have hxa : x ≠ a := by
          have h2 := (List.mem_filter.mp hx').2
          simpa using h2
        have hya : y ≠ a := by
          have h2 := (List.mem_filter.mp hy').2
          simpa using h2
        rw [firstIdx_cons_ne _ hxa, firstIdx_cons_ne _ hya]
        exact Nat.succ_lt_succ (firstIdx_filter_lt _ t x y hx' hy' hr)

/-- Members of `enumFrom n l` have index at least `n` and value in `l`. -/
theorem mem_enumFrom_le_and_mem {α : Type _} :
    ∀ {l : List α} {n : ℕ} {x : ℕ × α}, x ∈ List.enumFrom n l → n ≤ x.1 ∧ x.2 ∈ l := by
  intro l
  induction l with
  | nil => intro n x h; simp [List.enumFrom] at h
  | cons a t ih =>
    intro n x h
    rw [List.enumFrom] at h
    rcases List.mem_cons.mp h with rfl | h
    · exact ⟨Nat.le_refl _, List.mem_cons_self _ _⟩
    · obtain ⟨h1, h2⟩ := ih h
      exact ⟨Nat.le_of_succ_le h1, List.mem_cons_of_mem _ h2⟩

/-- A pairwise relation on a list holds between the values of any two
enumerated entries whose indices are in strict order. -/
theorem enumFrom_rel_of_fst_lt {α : Type _} {R : α → α → Prop} :
    ∀ {l : List α} {n : ℕ}, List.Pairwise R l → ∀ {x y : ℕ × α},
      x ∈ List.enumFrom n l → y ∈ List.enumFrom n l → x.1 < y.1 → R x.2 y.2 := by
  intro l
  induction l with
  | nil => intro n _ x y hx; simp [List.enumFrom] at hx
  | cons a t ih =>
    intro n hp x y hx hy hlt
    rw [List.enumFrom] at hx hy
    obtain ⟨ha, ht⟩ := List.pairwise_cons.mp hp
    rcases List.mem_cons.mp hx with rfl | hx
    · rcases List.mem_cons.mp hy with rfl | hy
      · exact absurd hlt (lt_irrefl _)
      · exact ha _ (mem_enumFrom_le_and_mem hy).2
    · rcases List.mem_cons.mp hy with rfl | hy
      · have h1 := (mem_enumFrom_le_and_mem hx).1
        exact absurd hlt (by simp only [] at h1 ⊢; omega)
      · exact ih ht hx hy hlt

/-- Enumerated entries are determined by their index. -/
theorem enumFrom_fst_inj {α : Type _} :
    ∀ {l : List α} {n : ℕ} {x y : ℕ × α}, x ∈ List.enumFrom n l →
      y ∈ List.enumFrom n l → x.1 = y.1 → x = y := by
  intro l
  induction l with
  | nil => intro n x y hx; simp [List.enumFrom] at hx
  | cons a t ih =>
    intro n x y hx hy heq
    rw [List.enumFrom] at hx hy
    rcases List.mem_cons.mp hx with rfl | hx
    · rcases List.mem_cons.mp hy with rfl | hy
      · rfl
      · have h1 := (mem_enumFrom_le_and_mem hy).1
        exact absurd heq (by simp only [] at h1 ⊢; omega)
    · rcases List.mem_cons.mp hy with rfl | hy
      · have h1 := (mem_enumFrom_le_and_mem hx).1
        exact absurd heq (by simp only [] at h1 ⊢; omega)
      · exact ih hx hy heq

/-- Enumerated lists have no duplicate entries. -/
theorem enumFrom_nodup {α : Type _} : ∀ (l : List α) (n : ℕ), (List.enumFrom n l).Nodup := by
  intro l
  induction l with
  | nil => intro n; simp [List.enumFrom]
  | cons a t ih =>
    intro n
    rw [List.enumFrom]
    refine List.Pairwise.cons ?_ (ih (n + 1))
    intro y hy heq
    have h1 := (mem_enumFrom_le_and_mem hy).1
    rw [← heq] at h1
    simp only [] at h1
    omega

/-- The sorted counter output is ordered by count descending, ties in
first-occurrence order of the underlying key list. -/
theorem counterSort_sorted {α : Type _} [DecidableEq α] (ks : List α) :
    List.Pairwise (fun p q : α × ℕ =>
      q.2 < p.2 ∨ (p.2 = q.2 ∧ Backend.firstIdx ks p.1 < Backend.firstIdx ks q.1))
      (Backend.counterSort ks) := by
  unfold Backend.counterSort
  rw [List.pairwise_map]
  have hperm := List.perm_insertionSort (@Backend.mcRel α) (Backend.counterPairs ks).enum
  have hsorted : List.Pairwise (@Backend.mcRel α)
      (List.insertionSort (@Backend.mcRel α) (Backend.counterPairs ks).enum) :=
    List.sorted_insertionSort _ _
  have hne : List.Pairwise (fun x y : ℕ × (α × ℕ) => x ≠ y)
      (List.insertionSort (@Backend.mcRel α) (Backend.counterPairs ks).enum) :=
    hperm.nodup_iff.mpr (enumFrom_nodup (Backend.counterPairs ks) 0)
  have hcp : List.Pairwise
      (fun p q : α × ℕ => Backend.firstIdx ks p.1 < Backend.firstIdx ks q.1)
      (Backend.counterPairs ks) := by
    unfold Backend.counterPairs Backend.firstSeen
    rw [List.pairwise_map]
    exact firstSeenAux_pairwise_firstIdx _ _
  refine (hsorted.and hne).imp_of_mem ?_
  intro x y hx hy hr
  obtain ⟨hmc, hxy⟩ := hr
  have hx' : x ∈ List.enumFrom 0 (Backend.counterPairs ks) := hperm.mem_iff.mp hx
  have hy' : y ∈ List.enumFrom 0 (Backend.counterPairs ks) := hperm.mem_iff.mp hy
  rcases hmc with hlt | ⟨heq, hle⟩
  · exact Or.inl hlt
  · refine Or.inr ⟨heq, ?_⟩
    have hfne : x.1 ≠ y.1 := fun h => hxy (enumFrom_fst_inj hx' hy' h)
    exact enumFrom_rel_of_fst_lt hcp hx' hy' (Nat.lt_of_le_of_ne hle hfne)

/-- C7: the aggregation's unique destination count is the cardinality of the
set of distinct (ip, port) pairs, and `top_destinations` has length at most
50, is ordered by occurrence count descending with ties broken by the first
occurrence of the pair in the event sequence, and each entry's count is the
number of events with that destination pair. -/
theorem compute_aggregates_top_destinations (E : List Backend.EventSchema) :
    (Backend.compute_aggregates E).unique_destinations =
      ((E.map Backend.key).toFinset).card ∧
    (Backend.compute_aggregates E).top_destinations.length ≤ 50 ∧
    List.Pairwise (fun d1 d2 : Backend.TopDest =>
      d2.count < d1.count ∨ (d1.count = d2.count ∧
        Backend.firstIdx (E.map Backend.key) (d1.dst_ip, d1.dst_port) <
          Backend.firstIdx (E.map Backend.key) (d2.dst_ip, d2.dst_port)))
      (Backend.compute_aggregates E).top_destinations ∧
    ∀ d ∈ (Backend.compute_aggregates E).top_destinations,
      d.count = (E.map Backend.key).countP
        (fun k => decide (k = (d.dst_ip, d.dst_port))) := by
  by_cases h : E = []
  · subst h
    refine ⟨by simp [Backend.compute_aggregates], by simp [Backend.compute_aggregates],
      by simp [Backend.compute_aggregates], ?_⟩
    intro d hd
    simp [Backend.compute_aggregates] at hd
  · have htop : (Backend.compute_aggregates E).top_destinations =
        Backend.topDestinations E := by
      simp [Backend.compute_aggregates, h]
    refine ⟨?_, ?_, ?_, ?_⟩
    · simp only [Backend.compute_aggregates, if_neg h]
      exact (List.card_toFinset _).symm
    · rw [htop]
      unfold Backend.topDestinations Backend.mostCommon
      rw [List.length_map, List.length_take]
      exact min_le_left _ _
    · rw [htop]
      unfold Backend.topDestinations Backend.mostCommon
      rw [List.pairwise_map]
      refine List.Pairwise.sublist (List.take_sublist _ _) ?_
      refine (counterSort_sorted (E.map Backend.key)).imp ?_
      intro p q hpq
      exact hpq
    · rw [htop]
      intro d hd
      unfold Backend.topDestinations Backend.mostCommon at hd
      obtain ⟨kc, hkc, hkd⟩ := List.mem_map.mp hd
      have h1 : kc ∈ Backend.counterSort (E.map Backend.key) :=
        (List.take_sublist _ _).subset hkc
      unfold Backend.counterSort at h1
      obtain ⟨x, hx, hxe⟩ := List.mem_map.mp h1
      have hx' : x ∈ List.enumFrom 0 (Backend.counterPairs (E.map Backend.key)) :=
        ((List.perm_insertionSort _ _).mem_iff).mp hx
      have hx2 : x.2 ∈ Backend.counterPairs (E.map Backend.key) :=
        (mem_enumFrom_le_and_mem hx').2
      rw [hxe] at hx2
      unfold Backend.counterPairs at hx2
      obtain ⟨a, ha, hak⟩ := List.mem_map.mp hx2
      rw [← hkd, ← hak]
      rfl

/-- Witness for `compute_aggregates_top_destinations`: the count recorded in
the single top destination of a one-event list. -/
theorem compute_aggregates_top_destinations_witness :
    sampleTopDest.count = ([unusualEvent].map Backend.key).countP
      (fun k => decide (k = (sampleTopDest.dst_ip, sampleTopDest.dst_port))) :=
  (compute_aggregates_top_destinations [unusualEvent]).2.2.2 sampleTopDest (by decide)
